import Mathlib

/-!
# Shallow embedding of the `dgt_harvest_rust` pixel-analysis engine

Source files embedded: `src/lib.rs` (sprite-triage `HarvestScanner`),
`src/lib_complex.rs` (full `MaterialTriageEngine`) and `src/lib_simple.rs`
(reduced `MaterialTriageEngine`).

Modelling conventions:

* Bytes are `ℕ` values (callers keep them in `[0,255]`); a pixel buffer is a
  flat `List ℕ` of RGBA bytes, row-major, as in the source.
* Rust `u8` casts that can wrap (`as u8` on an `i32`) are made explicit with
  `% 256`.  Rust `u32` subtraction that can underflow is modelled with a
  checked subtraction returning `Option` where a claim is about runtime
  faults, and with saturating `Nat` subtraction where the source itself uses
  `saturating_sub`.
* `f32`/`f64` ratio arithmetic is modelled over `ℚ`: every ratio in the
  source is a quotient of small integer counts and every constant
  (`0.05`, `0.1`, `0.15`, `0.2`, `0.3`, `30.0`) is an exact small rational,
  so none of the properties studied here hinges on float rounding.  The one
  float-sensitive spot, the grayscale luma `(0.299*r + 0.587*g + 0.114*b) as
  u8`, is modelled as the floor of the exact rational value (clamped to 255,
  as Rust float-to-int casts saturate); the claims about the edge detector
  are stated over arbitrary grayscale arrays so that this approximation
  carries no proof weight.
* The Rust `HashMap<String, f64>` histogram is modelled as an association
  list in a fixed canonical bucket order; wherever the source *iterates* a
  hash map (whose iteration order Rust does not fix), the statements
  quantify over arbitrary permutations of that canonical list.
* Fallible computation (out-of-bounds indexing, `u32` underflow panics) is
  modelled with `Option`: `none` models a runtime fault.
* All analysis functions are pure in the source (they take `&[u8]` and
  return fresh values); the embedding is correspondingly pure.
-/

namespace Harvest

/-- One RGBA pixel, four bytes, as unpacked from a chunk of the buffer. -/
structure Rgba where
  r : ℕ
  g : ℕ
  b : ℕ
  a : ℕ
deriving DecidableEq, Repr

/-- `pixels.chunks_exact(4)`: split the flat byte buffer into RGBA pixels,
dropping a trailing partial chunk exactly as `chunks_exact` does. -/
def chunksExact4 : List ℕ → List Rgba
  | r :: g :: b :: a :: rest => ⟨r, g, b, a⟩ :: chunksExact4 rest
  | _ => []

/-- `.enumerate()` over a pixel list, starting from a given index. -/
def enumFromN : ℕ → List Rgba → List (ℕ × Rgba)
  | _, [] => []
  | i, p :: rest => (i, p) :: enumFromN (i + 1) rest

/-- The pixels with `a > 0` (the opaque pixels), in buffer order. -/
def opaquePixels (buf : List ℕ) : List Rgba :=
  (chunksExact4 buf).filter (fun p => decide (0 < p.a))

/-- `total_pixels`: number of opaque pixels. -/
def totalOpaque (buf : List ℕ) : ℕ := (opaquePixels buf).length

/-- The message of the `PyValueError` every validating entry point raises
(the spec's `DimensionMismatch` error). -/
def dimensionError : String := "Pixel data length doesn't match dimensions"

/-- One step of the alpha-bounding-box scan (`lib_complex.rs` 188-201,
`lib.rs` 121-158 and 219-229 contain the same min/max tracking): state is
`(min_x, min_y, max_x, max_y)`; an opaque pixel at linear index `i` updates
the running bounds with `x = i % width`, `y = i / width`.  This total step
is used on the paths whose callers validate the buffer first (there
`width = 0` forces an empty pixel list, so the source's remainder-by-zero
panic at `width = 0` is unreachable); the pass behind the unvalidated
`lib_complex.rs` getter is additionally modelled checked, see
`abbFoldChecked`. -/
def abbStep (width : ℕ) (st : ℕ × ℕ × ℕ × ℕ) (ip : ℕ × Rgba) : ℕ × ℕ × ℕ × ℕ :=
  if 0 < ip.2.a then
    (min st.1 (ip.1 % width), min st.2.1 (ip.1 / width),
     max st.2.2.1 (ip.1 % width), max st.2.2.2 (ip.1 / width))
  else st

/-- The `(min_x, min_y, max_x, max_y)` content bounds: initial state
`(width, height, 0, 0)`, folded over the enumerated pixels. -/
def contentBounds (buf : List ℕ) (width height : ℕ) : ℕ × ℕ × ℕ × ℕ :=
  (enumFromN 0 (chunksExact4 buf)).foldl (abbStep width) (width, height, 0, 0)

/-- `calculate_alpha_bounding_box` (`lib_complex.rs` 182-208; `lib_simple.rs`
144-165 is the same computation): returns `(x, y, bbox_width, bbox_height)`
with `bbox_width = max_x - min_x + 1` when `max_x ≥ min_x`, else `0`. -/
def calculate_alpha_bounding_box (buf : List ℕ) (width height : ℕ) : ℕ × ℕ × ℕ × ℕ :=
  let b := contentBounds buf width height
  let bbox_width := if b.2.2.1 ≥ b.1 then b.2.2.1 - b.1 + 1 else 0
  let bbox_height := if b.2.2.2 ≥ b.2.1 then b.2.2.2 - b.2.1 + 1 else 0
  (b.1, b.2.1, bbox_width, bbox_height)

/-- `get_dominant_color` (`lib_complex.rs` 397-422 and `lib_simple.rs`
230-255, identical): mean R, G, B over opaque pixels with `u32` integer
division, `(0,0,0)` when there is no opaque pixel.  The unused
`width`/`height` parameters of the source are omitted. -/
def get_dominant_color (buf : List ℕ) : ℕ × ℕ × ℕ :=
  let op := opaquePixels buf
  let count := op.length
  if 0 < count then
    ((op.map Rgba.r).sum / count, (op.map Rgba.g).sum / count, (op.map Rgba.b).sum / count)
  else (0, 0, 0)

/-- `calculate_transparency_ratio` (`lib_complex.rs` 425-441): transparent
chunk count over total chunk count, `0` when the buffer has no chunks. -/
def calculate_transparency_ratio (buf : List ℕ) : ℚ :=
  let total := (chunksExact4 buf).length
  let transparent := (chunksExact4 buf).countP (fun p => decide (p.a = 0))
  if 0 < total then (transparent : ℚ) / (total : ℚ) else 0

/-- The dominant-bucket fold shared by `classify_material` in
`lib_complex.rs` 346-354 and `lib_simple.rs` 198-206: scan the histogram
entries keeping the first entry whose ratio strictly exceeds the running
maximum, starting from ratio `0` and name `"unknown"`.  The argument list is
the hash map's iteration sequence. -/
def dominantOf (color_profile : List (String × ℚ)) : String :=
  (color_profile.foldl
    (fun acc kv => if kv.2 > acc.1 then (kv.2, kv.1) else acc)
    ((0 : ℚ), "unknown")).2

/-- Material labels of `lib_complex.rs` (`enum MaterialType`, lines 42-51). -/
inductive MaterialType where
  | Wood | Stone | Grass | Water | Metal | Glass | Organic | Unknown
deriving DecidableEq, Repr

/-- `MaterialType::to_string` (`lib_complex.rs` 54-65). -/
def MaterialType.to_string : MaterialType → String
  | .Wood => "wood"
  | .Stone => "stone"
  | .Grass => "grass"
  | .Water => "water"
  | .Metal => "metal"
  | .Glass => "glass"
  | .Organic => "organic"
  | .Unknown => "unknown"

/-- The output descriptor (`struct MaterialDNA`, `lib_complex.rs` 14-38 and
`lib_simple.rs` 10-34).  `color_profile` holds the histogram entries in the
canonical bucket order (see the module comment on hash maps). -/
structure MaterialDNA where
  alpha_bounding_box : ℕ × ℕ × ℕ × ℕ
  material_type : String
  confidence : ℚ
  color_profile : List (String × ℚ)
  edge_density : ℚ
  is_object : Bool
  dominant_color : ℕ × ℕ × ℕ
  transparency_ratio : ℚ
deriving DecidableEq, Repr

namespace Complex

/-- `classify_color` (`lib_complex.rs` 243-281).  `gray_variance` is the
`i32` sum of absolute differences **cast to `u8`**, i.e. reduced `% 256`;
the later metal rule reuses that reduced value. -/
def classify_color (r g b : ℕ) : String :=
  if 100 ≤ r ∧ r ≤ 150 ∧ 50 ≤ g ∧ g ≤ 100 ∧ 20 ≤ b ∧ b ≤ 60 then "wood"
  else
    let gray_variance : ℕ := (((r : ℤ) - g).natAbs + ((g : ℤ) - b).natAbs) % 256
    if gray_variance < 30 then "stone"
    else if r < g ∧ b < g ∧ 100 < g then "grass"
    else if 150 < b ∧ r < b ∧ g < b then "water"
    else if (200 < r ∨ 200 < g ∨ 200 < b) ∧ 50 < gray_variance then "metal"
    else if (180 < r ∧ 180 < g ∧ 200 < b) ∨ (200 < r ∧ 200 < g ∧ 200 < b) then "glass"
    else if (100 < r ∧ 80 < g ∧ b < 100) ∨ (150 < r ∧ g < 100 ∧ b < 100) then "organic"
    else "other"

/-- The canonical bucket order used to present the histogram hash map as an
association list (every string `classify_color` can return). -/
def bucketNames : List String :=
  ["wood", "stone", "grass", "water", "metal", "glass", "organic", "other"]

/-- Number of opaque pixels classified into bucket `c`. -/
def bucketCount (buf : List ℕ) (c : String) : ℕ :=
  (opaquePixels buf).countP (fun p => decide (classify_color p.r p.g p.b = c))

/-- `calculate_color_histogram` (`lib_complex.rs` 211-240): per-bucket counts
over opaque pixels, normalized by the opaque-pixel count; empty when there is
no opaque pixel.  Presented in canonical bucket order with only the buckets
of positive count, exactly the entries the source's hash map holds.  The
unused `width`/`height` parameters of the source are omitted. -/
def calculate_color_histogram (buf : List ℕ) : List (String × ℚ) :=
  if totalOpaque buf = 0 then []
  else
    (bucketNames.filter (fun c => decide (0 < bucketCount buf c))).map
      (fun c => (c, (bucketCount buf c : ℚ) / (totalOpaque buf : ℚ)))

/-- `classify_material` (`lib_complex.rs` 344-373): dominant bucket of the
iterated histogram, then the "vase vs ocean" match.  The argument is the
iteration sequence of the histogram hash map. -/
def classify_material (color_profile : List (String × ℚ)) (edge_density : ℚ) : MaterialType :=
  match dominantOf color_profile with
  | "water" => if edge_density > 3 / 20 then MaterialType.Glass else MaterialType.Water
  | "wood" => MaterialType.Wood
  | "stone" => MaterialType.Stone
  | "grass" => MaterialType.Grass
  | "metal" => MaterialType.Metal
  | "glass" => MaterialType.Glass
  | "organic" => MaterialType.Organic
  | _ => MaterialType.Unknown

/-- The confidence boost of `calculate_confidence` (`lib_complex.rs`
384-388): `0.2` for wood/stone/grass/water, `0.1` for metal/glass, else 0. -/
def confidence_boost : MaterialType → ℚ
  | .Wood | .Stone | .Grass | .Water => 1 / 5
  | .Metal | .Glass => 1 / 10
  | _ => 0

/-- `calculate_confidence` (`lib_complex.rs` 376-394): look the label's
string up in the histogram; if present, ratio plus boost clamped above by
`1.0`; otherwise the `0.5` default. -/
def calculate_confidence (color_profile : List (String × ℚ)) (material_type : MaterialType) : ℚ :=
  match color_profile.lookup material_type.to_string with
  | some ratio => min (ratio + confidence_boost material_type) 1
  | none => 1 / 2

/-- `u32` subtraction with the Rust overflow check: `none` models the
"attempt to subtract with overflow" fault. -/
def checkedSub (a b : ℕ) : Option ℕ :=
  if b ≤ a then some (a - b) else none

/-- The grayscale byte written for one pixel (`lib_complex.rs` 288-300):
`(0.299*r + 0.587*g + 0.114*b) as u8` for opaque pixels, `0` for transparent
ones.  Modelled as the floor of the exact rational luma, clamped to `255`
(Rust float-to-int casts saturate); see the module comment on floats. -/
def lumaByte (p : Rgba) : ℕ :=
  if 0 < p.a then min 255 ((299 * p.r + 587 * p.g + 114 * p.b) / 1000) else 0

/-- The grayscale-filling loop (`lib_complex.rs` 286-300): write
`gray_pixels[i]` for each enumerated chunk, faulting (`none`) on an
out-of-bounds write exactly where the Rust indexing would panic. -/
def writeGray : List Rgba → ℕ → List ℕ → Option (List ℕ)
  | [], _, g => some g
  | p :: rest, i, g =>
    if i < g.length then writeGray rest (i + 1) (g.set i (lumaByte p)) else none

/-- Grayscale conversion pass of `calculate_edge_density`: a
`vec![0u8; width*height]` filled from the enumerated chunks. -/
def grayscaleChecked (buf : List ℕ) (width height : ℕ) : Option (List ℕ) :=
  writeGray (chunksExact4 buf) 0 (List.replicate (width * height) 0)

/-- Grayscale value at `(x, y)` as an `i32` (used to state the exact Sobel
convolutions; out-of-range reads default to `0`, but the claims only use
this inside proven bounds). -/
def grayAt (gray : List ℕ) (width x y : ℕ) : ℤ :=
  (gray.getD (y * width + x) 0 : ℤ)

/-- The exact horizontal Sobel convolution `Gx = [-1 0 1; -2 0 2; -1 0 1]`
at interior pixel `(x, y)`, as the source computes it
(`lib_complex.rs` 321). -/
def sobelGx (gray : List ℕ) (width x y : ℕ) : ℤ :=
  -grayAt gray width (x - 1) (y - 1) + grayAt gray width (x + 1) (y - 1)
    - 2 * grayAt gray width (x - 1) y + 2 * grayAt gray width (x + 1) y
    - grayAt gray width (x - 1) (y + 1) + grayAt gray width (x + 1) (y + 1)

/-- The exact vertical Sobel convolution `Gy = [-1 -2 -1; 0 0 0; 1 2 1]`
at interior pixel `(x, y)` (`lib_complex.rs` 322). -/
def sobelGy (gray : List ℕ) (width x y : ℕ) : ℤ :=
  -grayAt gray width (x - 1) (y - 1) - 2 * grayAt gray width x (y - 1)
    - grayAt gray width (x + 1) (y - 1)
    + grayAt gray width (x - 1) (y + 1) + 2 * grayAt gray width x (y + 1)
    + grayAt gray width (x + 1) (y + 1)

/-- The body of the Sobel loop for one interior pixel (`lib_complex.rs`
308-330): read the eight neighbours (faulting on out-of-bounds reads),
compute `|Gx|`, `|Gy|`, cast `|Gx| + |Gy|` to `u8` (`% 256`) and bump the
edge count when the reduced magnitude exceeds `30`. -/
def sobelStep (gray : List ℕ) (width acc x y : ℕ) : Option ℕ :=
  (gray[(y - 1) * width + (x - 1)]?).bind fun tl =>
  (gray[(y - 1) * width + x]?).bind fun tm =>
  (gray[(y - 1) * width + (x + 1)]?).bind fun tr =>
  (gray[y * width + (x - 1)]?).bind fun ml =>
  (gray[y * width + (x + 1)]?).bind fun mr =>
  (gray[(y + 1) * width + (x - 1)]?).bind fun bl =>
  (gray[(y + 1) * width + x]?).bind fun bm =>
  (gray[(y + 1) * width + (x + 1)]?).bind fun br =>
    let sobel_x : ℕ := (-(tl : ℤ) + tr - 2 * ml + 2 * mr - bl + br).natAbs
    let sobel_y : ℕ := (-(tl : ℤ) - 2 * tm - tr + bl + 2 * bm + br).natAbs
    let edge_magnitude : ℕ := (sobel_x + sobel_y) % 256
    some (if edge_magnitude > 30 then acc + 1 else acc)

/-- The double Sobel loop (`lib_complex.rs` 306-332): `y` over
`1..height-1`, `x` over `1..width-1`, with the Rust `u32` bound
computations checked (`height - 1` is evaluated once up front, `width - 1`
once per row, exactly as the `for` ranges evaluate them). -/
def edgeCountChecked (gray : List ℕ) (width height : ℕ) : Option ℕ :=
  (checkedSub height 1).bind fun hm =>
    (List.range' 1 (hm - 1)).foldlM
      (fun acc y =>
        (checkedSub width 1).bind fun wm =>
          (List.range' 1 (wm - 1)).foldlM (fun a x => sobelStep gray width a x y) acc)
      0

/-- `calculate_edge_density` (`lib_complex.rs` 284-341): grayscale pass,
Sobel pass, then `edge_count / (width*height)` with a guarded denominator.
`none` models a runtime fault in one of the passes. -/
def calculate_edge_density (buf : List ℕ) (width height : ℕ) : Option ℚ :=
  match grayscaleChecked buf width height with
  | none => none
  | some gray =>
    match edgeCountChecked gray width height with
    | none => none
    | some edge_count =>
      some (if 0 < width * height then (edge_count : ℚ) / ((width * height : ℕ) : ℚ) else 0)

/-- The engine's configured edge-density threshold (`lib_complex.rs` 91):
`0.2`.  The RGB threshold fields of the struct are never read. -/
def edge_threshold : ℚ := 1 / 5

/-- `material_triage_internal` (`lib_complex.rs` 144-179), with `none`
modelling a fault inside the edge-density pass. -/
def material_triage_internal (buf : List ℕ) (width height : ℕ) : Option MaterialDNA :=
  match calculate_edge_density buf width height with
  | none => none
  | some ed =>
    let profile := calculate_color_histogram buf
    let mt := classify_material profile ed
    some
      { alpha_bounding_box := calculate_alpha_bounding_box buf width height
        material_type := mt.to_string
        confidence := calculate_confidence profile mt
        color_profile := profile
        edge_density := ed
        is_object := decide (ed > edge_threshold)
        dominant_color := get_dominant_color buf
        transparency_ratio := calculate_transparency_ratio buf }

/-- `MaterialTriageEngine::analyze_sprite` (`lib_complex.rs` 96-118): the
only method of this engine that validates the buffer length. -/
def analyze_sprite (buf : List ℕ) (width height : ℕ) : Except String (Option MaterialDNA) :=
  if buf.length ≠ width * height * 4 then .error dimensionError
  else .ok (material_triage_internal buf width height)

end Complex

namespace Simple

/-- `classify_color` of the reduced variant (`lib_simple.rs` 171-194): the
same first four rules as the full variant (including the `as u8` reduction
of `gray_variance`), then `"other"`. -/
def classify_color (r g b : ℕ) : String :=
  if 100 ≤ r ∧ r ≤ 150 ∧ 50 ≤ g ∧ g ≤ 100 ∧ 20 ≤ b ∧ b ≤ 60 then "wood"
  else
    let gray_variance : ℕ := (((r : ℤ) - g).natAbs + ((g : ℤ) - b).natAbs) % 256
    if gray_variance < 30 then "stone"
    else if r < g ∧ b < g ∧ 100 < g then "grass"
    else if 150 < b ∧ r < b ∧ g < b then "water"
    else "other"

/-- Canonical bucket order for the reduced variant's histogram. -/
def bucketNames : List String := ["wood", "stone", "grass", "water", "other"]

/-- Opaque-pixel count per bucket under the reduced classifier. -/
def bucketCount (buf : List ℕ) (c : String) : ℕ :=
  (opaquePixels buf).countP (fun p => decide (classify_color p.r p.g p.b = c))

/-- The reduced variant's normalized color profile (`lib_simple.rs` 60-98),
presented in canonical bucket order. -/
def color_profile (buf : List ℕ) : List (String × ℚ) :=
  if totalOpaque buf = 0 then []
  else
    (bucketNames.filter (fun c => decide (0 < bucketCount buf c))).map
      (fun c => (c, (bucketCount buf c : ℚ) / (totalOpaque buf : ℚ)))

/-- `classify_material` of the reduced variant (`lib_simple.rs` 197-209):
just the dominant-bucket fold, returning the bucket string. -/
def classify_material (profile : List (String × ℚ)) : String :=
  dominantOf profile

/-- `calculate_confidence` of the reduced variant (`lib_simple.rs` 212-227):
boost `0.2` for wood/stone/grass/water only. -/
def calculate_confidence (profile : List (String × ℚ)) (material_type : String) : ℚ :=
  match profile.lookup material_type with
  | some ratio =>
    min (ratio +
      (if material_type = "wood" ∨ material_type = "stone" ∨ material_type = "grass" ∨
          material_type = "water" then (1 : ℚ) / 5 else 0)) 1
  | none => 1 / 2

/-- `MaterialTriageEngine::analyze_sprite` of the reduced variant
(`lib_simple.rs` 52-134): validates the buffer length, then assembles the
descriptor (edge density is the hard-coded `0.1` placeholder).  The
material label and confidence use the canonical histogram order (the hash
iteration order is quantified over where a claim depends on it). -/
def analyze_sprite (buf : List ℕ) (width height : ℕ) : Except String MaterialDNA :=
  if buf.length ≠ width * height * 4 then .error dimensionError
  else
    let profile := color_profile buf
    let material := classify_material profile
    .ok
      { alpha_bounding_box := calculate_alpha_bounding_box buf width height
        material_type := material
        confidence := calculate_confidence profile material
        color_profile := profile
        edge_density := 1 / 10
        is_object := decide ((1 : ℚ) / 10 > 1 / 5)
        dominant_color := get_dominant_color buf
        transparency_ratio :=
          if 0 < totalOpaque buf then
            ((width * height - totalOpaque buf : ℕ) : ℚ) / ((width * height : ℕ) : ℚ)
          else 1 }

end Simple

/-- The sprite-triage engine configuration (`struct HarvestScanner`,
`lib.rs` 39-44). -/
structure HarvestScanner where
  chest_threshold : ℚ
  green_threshold : ℚ
  gray_threshold : ℚ
  diversity_threshold : ℚ
deriving DecidableEq, Repr

/-- The sprite descriptor (`struct SpriteAnalysis`, `lib.rs` 14-35, merged
with `SpriteAnalysisInternal`, `lib.rs` 260-270). -/
structure SpriteAnalysis where
  chest_probability : ℚ
  is_chest : Bool
  content_bounds : ℕ × ℕ × ℕ × ℕ
  color_diversity : ℚ
  green_ratio : ℚ
  gray_ratio : ℚ
  brown_gold_ratio : ℚ
  is_character : Bool
  is_decoration : Bool
  is_material : Bool
deriving DecidableEq, Repr

namespace Sprite

/-- The brown/gold chest rule (`lib.rs` 143-145). -/
def isBrownGold (p : Rgba) : Prop :=
  (80 ≤ p.r ∧ p.r ≤ 180 ∧ 40 ≤ p.g ∧ p.g ≤ 140 ∧ p.b ≤ 80) ∨
  (160 ≤ p.r ∧ p.r ≤ 255 ∧ 100 ≤ p.g ∧ p.g ≤ 200 ∧ p.b ≤ 100) ∨
  (200 ≤ p.r ∧ p.r ≤ 255 ∧ 180 ≤ p.g ∧ p.g ≤ 220 ∧ p.b ≤ 100)

instance : DecidablePred isBrownGold := fun p => by unfold isBrownGold; infer_instance

/-- The plant rule (`lib.rs` 150): `g > r && g > b`. -/
def isGreen (p : Rgba) : Prop := p.r < p.g ∧ p.b < p.g

instance : DecidablePred isGreen := fun p => by unfold isGreen; infer_instance

/-- The rock rule (`lib.rs` 155): `|r-g| < 40 && |g-b| < 40` over `i32`
(no `u8` cast here, unlike the material classifier). -/
def isGray (p : Rgba) : Prop :=
  ((p.r : ℤ) - p.g).natAbs < 40 ∧ ((p.g : ℤ) - p.b).natAbs < 40

instance : DecidablePred isGray := fun p => by unfold isGray; infer_instance

/-- `analyze_sprite_internal` (`lib.rs` 107-209).  The single Rust loop
accumulates independent statistics; it is modelled as independent scans over
the same opaque-pixel list (an associative-commutative reduction, so the
results coincide).  The `HashSet` of colors is modelled by `dedup` on the
opaque RGB list.  Note that none of the configured thresholds is read here:
`is_decoration` and `is_material` use the literal constants `0.05`, `0.2`,
`0.3`, `0.1` (`lib.rs` 193, 196). -/
def analyze_sprite_internal (buf : List ℕ) (width height : ℕ) : SpriteAnalysis :=
  let op := opaquePixels buf
  let total := op.length
  let brown_gold := op.countP (fun p => decide (isBrownGold p))
  let green := op.countP (fun p => decide (isGreen p))
  let gray := op.countP (fun p => decide (isGray p))
  let colors := ((op.map (fun p => (p.r, p.g, p.b))).dedup).length
  let chest_probability : ℚ := if 0 < total then (brown_gold : ℚ) / (total : ℚ) else 0
  let green_ratio : ℚ := if 0 < total then (green : ℚ) / (total : ℚ) else 0
  let gray_ratio : ℚ := if 0 < total then (gray : ℚ) / (total : ℚ) else 0
  let color_diversity : ℚ := if 0 < total then (colors : ℚ) / (total : ℚ) else 0
  let aspect_ratio : ℚ := (width : ℚ) / (height : ℚ)
  { chest_probability := chest_probability
    is_chest := false
    content_bounds := contentBounds buf width height
    color_diversity := color_diversity
    green_ratio := green_ratio
    gray_ratio := gray_ratio
    brown_gold_ratio := chest_probability
    is_character :=
      decide (20 < total ∧ 1 / 2 ≤ aspect_ratio ∧ aspect_ratio ≤ 2 ∧ 3 < colors)
    is_decoration :=
      decide (color_diversity > 1 / 20 ∨ green_ratio > 1 / 5 ∨ gray_ratio > 3 / 10)
    is_material := decide (color_diversity < 1 / 10) }

/-- `HarvestScanner::analyze_sprite` (`lib.rs` 64-88): validate the buffer
length, run the internal analysis, and set `is_chest` from the configured
`chest_threshold` (the only configuration field the result depends on). -/
def analyze_sprite (s : HarvestScanner) (buf : List ℕ) (width height : ℕ) :
    Except String SpriteAnalysis :=
  if buf.length ≠ width * height * 4 then .error dimensionError
  else
    let analysis := analyze_sprite_internal buf width height
    .ok { analysis with
          is_chest := decide (analysis.chest_probability > s.chest_threshold) }

/-- Zero the four channel bytes of the pixel starting at byte index `idx`
(`lib.rs` 243-251), guarded by the source's `idx + 3 < cleaned.len()`
check. -/
def zeroPixel (cleaned : List ℕ) (idx : ℕ) : List ℕ :=
  if idx + 3 < cleaned.length then
    ((((cleaned.set idx 0).set (idx + 1) 0).set (idx + 2) 0).set (idx + 3) 0)
  else cleaned

/-- `auto_clean_edges_internal` (`lib.rs` 212-256): recompute the content
bounds, pad by `threshold` (saturating below, clamped to `width-1` /
`height-1` above — `Nat` subtraction models `saturating_sub` exactly, and
`width - 1` at `width = 0` is only reachable with an empty pixel grid, where
the clamped value is never used by the empty loops), then copy the buffer
and zero every pixel outside the padded bounds. -/
def auto_clean_edges_internal (pixels : List ℕ) (width height threshold : ℕ) : List ℕ :=
  let b := contentBounds pixels width height
  let min_x := b.1 - threshold
  let min_y := b.2.1 - threshold
  let max_x := min (b.2.2.1 + threshold) (width - 1)
  let max_y := min (b.2.2.2 + threshold) (height - 1)
  ((List.range height).flatMap fun y => (List.range width).map fun x => (y, x)).foldl
    (fun cleaned yx =>
      if yx.2 < min_x ∨ max_x < yx.2 ∨ yx.1 < min_y ∨ max_y < yx.1 then
        zeroPixel cleaned ((yx.1 * width + yx.2) * 4)
      else cleaned)
    pixels

/-- Membership in the exact alpha bounding box of a buffer: the pixel
coordinates lie within the `(min_x, min_y, max_x, max_y)` content bounds. -/
def insideABB (buf : List ℕ) (width height x y : ℕ) : Prop :=
  let b := contentBounds buf width height
  b.1 ≤ x ∧ x ≤ b.2.2.1 ∧ b.2.1 ≤ y ∧ y ≤ b.2.2.2

instance (buf : List ℕ) (width height x y : ℕ) :
    Decidable (insideABB buf width height x y) := by
  unfold insideABB; infer_instance

end Sprite

/-! ## Helper lemmas -/

theorem mem_enumFromN {l : List Rgba} {i : ℕ} {q : ℕ × Rgba}
    (h : q ∈ enumFromN i l) : i ≤ q.1 ∧ q.1 < i + l.length ∧ q.2 ∈ l := by
  induction l generalizing i with
  | nil => simp [enumFromN] at h
  | cons p rest ih =>
    rw [enumFromN] at h
    rcases List.mem_cons.1 h with h | h
    · subst h; simp
    · obtain ⟨h1, h2, h3⟩ := ih h
      refine ⟨by omega, by simp; omega, List.mem_cons_of_mem _ h3⟩

theorem abbFold_transparent (width : ℕ) (l : List (ℕ × Rgba)) (st : ℕ × ℕ × ℕ × ℕ)
    (h : ∀ q ∈ l, q.2.a = 0) : l.foldl (abbStep width) st = st := by
  induction l generalizing st with
  | nil => rfl
  | cons q rest ih =>
    have hq : abbStep width st q = st := by
      unfold abbStep
      rw [if_neg]
      have := h q (List.mem_cons_self q rest)
      omega
    rw [List.foldl_cons, hq]
    exact ih st (fun q hq => h q (List.mem_cons_of_mem _ hq))

theorem lookup_mem {l : List (String × ℚ)} {k : String} {v : ℚ}
    (h : l.lookup k = some v) : (k, v) ∈ l := by
  induction l with
  | nil => simp [List.lookup] at h
  | cons p rest ih =>
    rw [List.lookup] at h
    cases hk : (k == p.1) with
    | true =>
      rw [hk] at h
      obtain rfl : p.2 = v := by injection h
      obtain rfl : k = p.1 := by simpa using hk
      simp
    | false =>
      rw [hk] at h
      exact List.mem_cons_of_mem _ (ih h)

theorem confidence_boost_nonneg (mt : MaterialType) : 0 ≤ Complex.confidence_boost mt := by
  cases mt <;> norm_num [Complex.confidence_boost]

theorem histogram_mem_bounds {buf : List ℕ} {p : String × ℚ}
    (h : p ∈ Complex.calculate_color_histogram buf) : 0 < p.2 ∧ p.2 ≤ 1 := by
  rw [Complex.calculate_color_histogram] at h
  by_cases ht : totalOpaque buf = 0
  · rw [if_pos ht] at h; simp at h
  · rw [if_neg ht] at h
    obtain ⟨c, hc, rfl⟩ := List.mem_map.1 h
    have hcnt : 0 < Complex.bucketCount buf c := by
      have := (List.mem_filter.1 hc).2
      simpa using this
    have hle : Complex.bucketCount buf c ≤ totalOpaque buf :=
      List.countP_le_length _
    have htpos : 0 < totalOpaque buf := Nat.pos_of_ne_zero ht
    constructor
    · exact div_pos (by exact_mod_cast hcnt) (by exact_mod_cast htpos)
    · rw [div_le_one (by exact_mod_cast htpos)]
      exact_mod_cast hle

/-- C2 (counterexample): the triple `(255, 0, 1)` does not match the wood
rule and its exact sum of absolute differences is `256` (not `< 30`), yet
both classifiers return `"stone"`, because the source casts the sum to `u8`
(`256 % 256 = 0 < 30`).  This refutes the claim that the stone test uses
exact integer arithmetic. -/
theorem claim_C2_counterexample :
    ¬(100 ≤ 255 ∧ 255 ≤ 150 ∧ 50 ≤ 0 ∧ 0 ≤ 100 ∧ 20 ≤ 1 ∧ 1 ≤ 60) ∧
    ((255 : ℤ) - 0).natAbs + ((0 : ℤ) - 1).natAbs = 256 ∧
    ¬(((255 : ℤ) - 0).natAbs + ((0 : ℤ) - 1).natAbs < 30) ∧
    Complex.classify_color 255 0 1 = "stone" ∧
    Simple.classify_color 255 0 1 = "stone" := by
  refine ⟨by decide, by decide, by decide, rfl, rfl⟩

/-- C2 (amended): for every non-wood triple, both classifiers return
`"stone"` if and only if `(|r-g| + |g-b|) % 256 < 30` — the sum of absolute
differences is reduced modulo 256 by the `as u8` cast before the comparison,
so sums of 256 or more can wrap around below the threshold. -/
theorem claim_C2_amended (r g b : ℕ)
    (hw : ¬(100 ≤ r ∧ r ≤ 150 ∧ 50 ≤ g ∧ g ≤ 100 ∧ 20 ≤ b ∧ b ≤ 60)) :
    (Complex.classify_color r g b = "stone" ↔
      (((r : ℤ) - g).natAbs + ((g : ℤ) - b).natAbs) % 256 < 30) ∧
    (Simple.classify_color r g b = "stone" ↔
      (((r : ℤ) - g).natAbs + ((g : ℤ) - b).natAbs) % 256 < 30) := by
  constructor
  · rw [Complex.classify_color, if_neg hw]
    by_cases h : (((r : ℤ) - g).natAbs + ((g : ℤ) - b).natAbs) % 256 < 30
    · rw [if_pos h]
      simp [h]
    · rw [if_neg h]
      simp only [h, iff_false]
      split_ifs <;> simp
  · rw [Simple.classify_color, if_neg hw]
    by_cases h : (((r : ℤ) - g).natAbs + ((g : ℤ) - b).natAbs) % 256 < 30
    · rw [if_pos h]
      simp [h]
    · rw [if_neg h]
      simp only [h, iff_false]
      split_ifs <;> simp

/-- C2 (witness): the amended statement at the concrete non-wood triple
`(255, 0, 1)`, whose reduced variance `256 % 256 = 0` is below 30. -/
theorem claim_C2_witness :
    (Complex.classify_color 255 0 1 = "stone" ↔
      (((255 : ℤ) - 0).natAbs + ((0 : ℤ) - 1).natAbs) % 256 < 30) ∧
    (Simple.classify_color 255 0 1 = "stone" ↔
      (((255 : ℤ) - 0).natAbs + ((0 : ℤ) - 1).natAbs) % 256 < 30) :=
  claim_C2_amended 255 0 1 (by decide)

/-! ## Claim C7 -/

/-- C7 (counterexample): at the degenerate valid input `width = height = 0`
(empty buffer, every pixel vacuously transparent), the alpha bounding box is
`(0, 0, 1, 1)` — reported box width and height are `1`, not `0`, because
`max_x ≥ min_x` degenerates to `0 ≥ 0` — refuting the claim that the
zero-area box is returned for all widths and heights. -/
theorem claim_C7_counterexample :
    ([] : List ℕ).length = 0 * 0 * 4 ∧
    (∀ p ∈ chunksExact4 [], p.a = 0) ∧
    calculate_alpha_bounding_box [] 0 0 = (0, 0, 1, 1) ∧
    (0, 0, 1, 1) ≠ ((0 : ℕ), (0 : ℕ), (0 : ℕ), (0 : ℕ)) := by
  refine ⟨rfl, by simp [chunksExact4], rfl, by decide⟩

/-- C7 (amended): for every valid buffer with `width ≥ 1` and `height ≥ 1`
in which every pixel has alpha 0, the alpha bounding box is the collapsed
box `(width, height, 0, 0)` and the color histogram is the empty mapping.
(For `width = 0` or `height = 0` the degenerate axis reports extent 1, as
the counterexample shows.) -/
theorem claim_C7_amended (buf : List ℕ) (width height : ℕ)
    (hlen : buf.length = width * height * 4) (hw : 1 ≤ width) (hh : 1 ≤ height)
    (htr : ∀ p ∈ chunksExact4 buf, p.a = 0) :
    calculate_alpha_bounding_box buf width height = (width, height, 0, 0) ∧
    Complex.calculate_color_histogram buf = [] := by
  have hcb : contentBounds buf width height = (width, height, 0, 0) :=
    abbFold_transparent width _ _ (fun q hq => htr q.2 (mem_enumFromN hq).2.2)
  constructor
  · rw [calculate_alpha_bounding_box, hcb]
    simp only []
    rw [if_neg (by simp; omega), if_neg (by simp; omega)]
  · have hop : opaquePixels buf = [] := by
      rw [opaquePixels, List.filter_eq_nil_iff]
      intro p hp
      simp [htr p hp]
    rw [Complex.calculate_color_histogram, if_pos (by rw [totalOpaque, hop]; rfl)]

/-- C7 (witness): the amended statement at the concrete all-transparent
1×1 buffer `[0,0,0,0]`. -/
theorem claim_C7_witness :
    calculate_alpha_bounding_box [0, 0, 0, 0] 1 1 = (1, 1, 0, 0) ∧
    Complex.calculate_color_histogram [0, 0, 0, 0] = [] :=
  claim_C7_amended [0, 0, 0, 0] 1 1 (by decide) (by decide) (by decide) (by decide)

/-! ## Claim C10 -/

/-- C10 (confirmed): two sprite-triage scanners whose configurations agree
on `chest_threshold` but differ arbitrarily in `green_threshold`,
`gray_threshold` and `diversity_threshold` return identical sprite
descriptors on every input: the internal analysis reads none of the
configured thresholds (`is_decoration` and `is_material` use literal
constants) and the public wrapper reads only `chest_threshold`. -/
theorem claim_C10 (s1 s2 : HarvestScanner) (buf : List ℕ) (width height : ℕ)
    (hct : s1.chest_threshold = s2.chest_threshold) :
    Sprite.analyze_sprite s1 buf width height = Sprite.analyze_sprite s2 buf width height := by
  unfold Sprite.analyze_sprite
  rw [hct]

/-- C10 (witness): two concrete configurations sharing `chest_threshold =
3/10` but with all three other thresholds different give identical results
on a concrete 1×1 buffer. -/
theorem claim_C10_witness :
    Sprite.analyze_sprite ⟨3 / 10, 0, 0, 0⟩ [1, 2, 3, 255] 1 1 =
      Sprite.analyze_sprite ⟨3 / 10, 1, 1, 1⟩ [1, 2, 3, 255] 1 1 :=
  claim_C10 ⟨3 / 10, 0, 0, 0⟩ ⟨3 / 10, 1, 1, 1⟩ [1, 2, 3, 255] 1 1 rfl

/-! ## Claim C4 -/

/-- C4 (confirmed): in material triage, whatever iteration order the
histogram hash map presents, if the dominant bucket is `"water"` the label
is glass when the edge density exceeds `0.15` and water otherwise, and for
every other dominant bucket among wood, stone, grass, metal, glass, organic
the material label maps 1:1 to the bucket. -/
theorem claim_C4 (buf : List ℕ) (l : List (String × ℚ)) (edge_density : ℚ)
    (hperm : l.Perm (Complex.calculate_color_histogram buf)) :
    (dominantOf l = "water" →
      Complex.classify_material l edge_density =
        (if edge_density > 3 / 20 then MaterialType.Glass else MaterialType.Water)) ∧
    (∀ d ∈ (["wood", "stone", "grass", "metal", "glass", "organic"] : List String),
      dominantOf l = d → (Complex.classify_material l edge_density).to_string = d) := by
  constructor
  · intro hd
    rw [Complex.classify_material, hd]
    rfl
  · intro d hd hdom
    fin_cases hd <;> rw [Complex.classify_material, hdom] <;> rfl

/-- C4 (witness): for the concrete 1×1 water pixel `(0,0,200,255)` the
histogram is `{water: 1}`; with edge density `1/5 > 0.15` the label is
glass, with `1/10 ≤ 0.15` it stays water. -/
theorem claim_C4_witness :
    Complex.calculate_color_histogram [0, 0, 200, 255] = [("water", (1 : ℚ))] ∧
    dominantOf [("water", (1 : ℚ))] = "water" ∧
    Complex.classify_material [("water", (1 : ℚ))] (1 / 5) = MaterialType.Glass ∧
    Complex.classify_material [("water", (1 : ℚ))] (1 / 10) = MaterialType.Water := by
  have hh : Complex.calculate_color_histogram [0, 0, 200, 255] = [("water", (1 : ℚ))] := by
    have ht : totalOpaque [0, 0, 200, 255] = 1 := rfl
    have h1 : Complex.bucketCount [0, 0, 200, 255] "wood" = 0 := rfl
    have h2 : Complex.bucketCount [0, 0, 200, 255] "stone" = 0 := rfl
    have h3 : Complex.bucketCount [0, 0, 200, 255] "grass" = 0 := rfl
    have h4 : Complex.bucketCount [0, 0, 200, 255] "water" = 1 := rfl
    have h5 : Complex.bucketCount [0, 0, 200, 255] "metal" = 0 := rfl
    have h6 : Complex.bucketCount [0, 0, 200, 255] "glass" = 0 := rfl
    have h7 : Complex.bucketCount [0, 0, 200, 255] "organic" = 0 := rfl
    have h8 : Complex.bucketCount [0, 0, 200, 255] "other" = 0 := rfl
    rw [Complex.calculate_color_histogram, if_neg (by rw [ht]; decide)]
    simp [Complex.bucketNames, ht, h1, h2, h3, h4, h5, h6, h7, h8]
  have hd : dominantOf [("water", (1 : ℚ))] = "water" := by norm_num [dominantOf]
  refine ⟨hh, hd, ?_, ?_⟩
  · rw [(claim_C4 [0, 0, 200, 255] [("water", (1 : ℚ))] (1 / 5) (by rw [hh])).1 hd]
    rw [if_pos (by norm_num)]
  · rw [(claim_C4 [0, 0, 200, 255] [("water", (1 : ℚ))] (1 / 10) (by rw [hh])).1 hd]
    rw [if_neg (by norm_num)]

/-! ## Claim C5 -/

/-- C5 (confirmed): for every valid buffer (under any iteration order of
its histogram), the confidence of the chosen material label equals the
label's histogram frequency plus the boost (`0.2` for wood/stone/grass/
water, `0.1` for metal/glass, `0` otherwise) clamped above by 1 when the
label has a histogram entry, equals exactly `0.5` when it has none, and
always lies in `[0, 1]`. -/
theorem claim_C5 (buf : List ℕ) (edge_density : ℚ) (l : List (String × ℚ))
    (hperm : l.Perm (Complex.calculate_color_histogram buf)) :
    0 ≤ Complex.calculate_confidence l (Complex.classify_material l edge_density) ∧
    Complex.calculate_confidence l (Complex.classify_material l edge_density) ≤ 1 ∧
    (l.lookup (Complex.classify_material l edge_density).to_string = none →
      Complex.calculate_confidence l (Complex.classify_material l edge_density) = 1 / 2) ∧
    (∀ q, l.lookup (Complex.classify_material l edge_density).to_string = some q →
      Complex.calculate_confidence l (Complex.classify_material l edge_density) =
        min (q + Complex.confidence_boost (Complex.classify_material l edge_density)) 1) := by
  set mt := Complex.classify_material l edge_density with hmt
  cases hl : l.lookup mt.to_string with
  | none =>
    have hc : Complex.calculate_confidence l mt = 1 / 2 := by
      rw [Complex.calculate_confidence, hl]
    refine ⟨by rw [hc]; norm_num, by rw [hc]; norm_num, fun _ => hc, ?_⟩
    intro q hq
    simp at hq
  | some q =>
    have hmem : (mt.to_string, q) ∈ l := lookup_mem hl
    have hq : 0 < q ∧ q ≤ 1 :=
      histogram_mem_bounds (hperm.mem_iff.1 hmem)
    have hc : Complex.calculate_confidence l mt = min (q + Complex.confidence_boost mt) 1 := by
      rw [Complex.calculate_confidence, hl]
    refine ⟨?_, ?_, ?_, ?_⟩
    · rw [hc]
      exact le_min (add_nonneg hq.1.le (confidence_boost_nonneg mt)) zero_le_one
    · rw [hc]
      exact min_le_right _ _
    · intro hnone
      simp at hnone
    · intro q2 hq2
      obtain rfl : q = q2 := by injection hq2
      exact hc

/-- C5 (witness): the bounds instantiated at the concrete uniform stone
pixel `(128,128,128,255)` whose histogram is `{stone: 1}`. -/
theorem claim_C5_witness :
    0 ≤ Complex.calculate_confidence [("stone", (1 : ℚ))]
        (Complex.classify_material [("stone", (1 : ℚ))] 0) ∧
    Complex.calculate_confidence [("stone", (1 : ℚ))]
        (Complex.classify_material [("stone", (1 : ℚ))] 0) ≤ 1 := by
  have hh : Complex.calculate_color_histogram [128, 128, 128, 255] = [("stone", (1 : ℚ))] := by
    have ht : totalOpaque [128, 128, 128, 255] = 1 := rfl
    have h1 : Complex.bucketCount [128, 128, 128, 255] "wood" = 0 := rfl
    have h2 : Complex.bucketCount [128, 128, 128, 255] "stone" = 1 := rfl
    have h3 : Complex.bucketCount [128, 128, 128, 255] "grass" = 0 := rfl
    have h4 : Complex.bucketCount [128, 128, 128, 255] "water" = 0 := rfl
    have h5 : Complex.bucketCount [128, 128, 128, 255] "metal" = 0 := rfl
    have h6 : Complex.bucketCount [128, 128, 128, 255] "glass" = 0 := rfl
    have h7 : Complex.bucketCount [128, 128, 128, 255] "organic" = 0 := rfl
    have h8 : Complex.bucketCount [128, 128, 128, 255] "other" = 0 := rfl
    rw [Complex.calculate_color_histogram, if_neg (by rw [ht]; decide)]
    simp [Complex.bucketNames, ht, h1, h2, h3, h4, h5, h6, h7, h8]
  have h := claim_C5 [128, 128, 128, 255] 0 [("stone", (1 : ℚ))] (by rw [hh])
  exact ⟨h.1, h.2.1⟩

/-! ## Claim C6: dominant-fold properties -/

theorem foldl_dominant_const (l : List (String × ℚ)) (m : ℚ) (d : String)
    (h : ∀ p ∈ l, p.2 ≤ m) :
    l.foldl (fun acc kv => if kv.2 > acc.1 then (kv.2, kv.1) else acc) (m, d) = (m, d) := by
  induction l with
  | nil => rfl
  | cons p rest ih =>
    simp only [List.foldl_cons]
    rw [if_neg (not_lt.2 (h p (List.mem_cons_self p rest)))]
    exact ih (fun q hq => h q (List.mem_cons_of_mem _ hq))

theorem foldl_dominant_max (l : List (String × ℚ)) (init : ℚ × String) (k₀ : String) (v₀ : ℚ)
    (hmem : (k₀, v₀) ∈ l) (hgt : init.1 < v₀)
    (hmax : ∀ p ∈ l, p.2 ≤ v₀)
    (huniq : ∀ p ∈ l, p.2 = v₀ → p = (k₀, v₀)) :
    l.foldl (fun acc kv => if kv.2 > acc.1 then (kv.2, kv.1) else acc) init = (v₀, k₀) := by
  induction l generalizing init with
  | nil => simp at hmem
  | cons p rest ih =>
    simp only [List.foldl_cons]
    by_cases hp : p = (k₀, v₀)
    · subst hp
      rw [if_pos hgt]
      exact foldl_dominant_const rest v₀ k₀ (fun q hq => hmax q (List.mem_cons_of_mem _ hq))
    · have hlt : p.2 < v₀ :=
        lt_of_le_of_ne (hmax p (List.mem_cons_self p rest))
          (fun he => hp (huniq p (List.mem_cons_self p rest) he))
      have hmem2 : (k₀, v₀) ∈ rest := by
        rcases List.mem_cons.1 hmem with h | h
        · exact absurd h.symm hp
        · exact h
      have hmax2 : ∀ q ∈ rest, q.2 ≤ v₀ := fun q hq => hmax q (List.mem_cons_of_mem _ hq)
      have huniq2 : ∀ q ∈ rest, q.2 = v₀ → q = (k₀, v₀) := fun q hq =>
        huniq q (List.mem_cons_of_mem _ hq)
      by_cases hstep : p.2 > init.1
      · rw [if_pos hstep]
        exact ih (p.2, p.1) hmem2 hlt hmax2 huniq2
      · rw [if_neg hstep]
        exact ih init hmem2 hgt hmax2 huniq2

theorem dominantOf_eq (l : List (String × ℚ)) (k₀ : String) (v₀ : ℚ)
    (hmem : (k₀, v₀) ∈ l) (hpos : 0 < v₀)
    (hmax : ∀ p ∈ l, p.2 ≤ v₀)
    (huniq : ∀ p ∈ l, p.2 = v₀ → p = (k₀, v₀)) :
    dominantOf l = k₀ := by
  rw [dominantOf, foldl_dominant_max l ((0 : ℚ), "unknown") k₀ v₀ hmem hpos hmax huniq]

theorem exists_max_pair (l : List (String × ℚ)) (h : l ≠ []) :
    ∃ p₀ ∈ l, ∀ p ∈ l, p.2 ≤ p₀.2 := by
  induction l with
  | nil => exact absurd rfl h
  | cons p rest ih =>
    by_cases hr : rest = []
    · subst hr
      exact ⟨p, List.mem_cons_self p [], by simp⟩
    · obtain ⟨q, hq, hqmax⟩ := ih hr
      by_cases hpq : p.2 ≤ q.2
      · refine ⟨q, List.mem_cons_of_mem _ hq, fun r hr2 => ?_⟩
        rcases List.mem_cons.1 hr2 with h2 | h2
        · rw [h2]; exact hpq
        · exact hqmax r h2
      · refine ⟨p, List.mem_cons_self p rest, fun r hr2 => ?_⟩
        rcases List.mem_cons.1 hr2 with h2 | h2
        · rw [h2]
        · exact le_trans (hqmax r h2) (le_of_not_le hpq)

theorem dominantOf_perm_of_nodup (l1 l2 : List (String × ℚ)) (hperm : l1.Perm l2)
    (hpos : ∀ p ∈ l1, 0 < p.2) (hnd : (l1.map Prod.snd).Nodup) :
    dominantOf l1 = dominantOf l2 := by
  by_cases hnil : l1 = []
  · subst hnil
    rw [hperm.symm.eq_nil]
  · obtain ⟨p₀, hp₀, hmax⟩ := exists_max_pair l1 hnil
    have huniq1 : ∀ p ∈ l1, p.2 = p₀.2 → p = p₀ := fun p hp he =>
      List.inj_on_of_nodup_map hnd hp hp₀ he
    have h1 : dominantOf l1 = p₀.1 :=
      dominantOf_eq l1 p₀.1 p₀.2 hp₀ (hpos p₀ hp₀) hmax huniq1
    have h2 : dominantOf l2 = p₀.1 :=
      dominantOf_eq l2 p₀.1 p₀.2 (hperm.subset hp₀) (hpos p₀ hp₀)
        (fun p hp => hmax p (hperm.symm.subset hp))
        (fun p hp => huniq1 p (hperm.symm.subset hp))
    rw [h1, h2]

/-- C6 (counterexample): the concrete 2×1 buffer with one stone pixel and
one grass pixel has the tied histogram `{stone: 1/2, grass: 1/2}`; both
orders of these entries are iteration sequences of the same histogram hash
map, yet the dominant-bucket fold classifies one as stone and the other as
grass — two calls differing only in hash-map iteration order return
different outputs, refuting determinism under ties. -/
theorem claim_C6_counterexample :
    Complex.calculate_color_histogram [128, 128, 128, 255, 0, 160, 0, 255] =
      [("stone", (1 : ℚ) / 2), ("grass", 1 / 2)] ∧
    [("grass", (1 : ℚ) / 2), ("stone", 1 / 2)].Perm
      (Complex.calculate_color_histogram [128, 128, 128, 255, 0, 160, 0, 255]) ∧
    Complex.classify_material [("stone", (1 : ℚ) / 2), ("grass", 1 / 2)] 0 =
      MaterialType.Stone ∧
    Complex.classify_material [("grass", (1 : ℚ) / 2), ("stone", 1 / 2)] 0 =
      MaterialType.Grass ∧
    Complex.classify_material [("stone", (1 : ℚ) / 2), ("grass", 1 / 2)] 0 ≠
      Complex.classify_material [("grass", (1 : ℚ) / 2), ("stone", 1 / 2)] 0 := by
  have hh : Complex.calculate_color_histogram [128, 128, 128, 255, 0, 160, 0, 255] =
      [("stone", (1 : ℚ) / 2), ("grass", 1 / 2)] := by
    have ht : totalOpaque [128, 128, 128, 255, 0, 160, 0, 255] = 2 := rfl
    have h1 : Complex.bucketCount [128, 128, 128, 255, 0, 160, 0, 255] "wood" = 0 := rfl
    have h2 : Complex.bucketCount [128, 128, 128, 255, 0, 160, 0, 255] "stone" = 1 := rfl
    have h3 : Complex.bucketCount [128, 128, 128, 255, 0, 160, 0, 255] "grass" = 1 := rfl
    have h4 : Complex.bucketCount [128, 128, 128, 255, 0, 160, 0, 255] "water" = 0 := rfl
    have h5 : Complex.bucketCount [128, 128, 128, 255, 0, 160, 0, 255] "metal" = 0 := rfl
    have h6 : Complex.bucketCount [128, 128, 128, 255, 0, 160, 0, 255] "glass" = 0 := rfl
    have h7 : Complex.bucketCount [128, 128, 128, 255, 0, 160, 0, 255] "organic" = 0 := rfl
    have h8 : Complex.bucketCount [128, 128, 128, 255, 0, 160, 0, 255] "other" = 0 := rfl
    rw [Complex.calculate_color_histogram, if_neg (by rw [ht]; decide)]
    simp [Complex.bucketNames, ht, h1, h2, h3, h4, h5, h6, h7, h8]
  have hs : Complex.classify_material [("stone", (1 : ℚ) / 2), ("grass", 1 / 2)] 0 =
      MaterialType.Stone := by
    have hd : dominantOf [("stone", (1 : ℚ) / 2), ("grass", 1 / 2)] = "stone" := by
      norm_num [dominantOf]
    rw [Complex.classify_material, hd]
    rfl
  have hg : Complex.classify_material [("grass", (1 : ℚ) / 2), ("stone", 1 / 2)] 0 =
      MaterialType.Grass := by
    have hd : dominantOf [("grass", (1 : ℚ) / 2), ("stone", 1 / 2)] = "grass" := by
      norm_num [dominantOf]
    rw [Complex.classify_material, hd]
    rfl
  refine ⟨hh, ?_, hs, hg, ?_⟩
  · rw [hh]
    exact List.Perm.swap ("stone", (1 : ℚ) / 2) ("grass", 1 / 2) []
  · rw [hs, hg]
    simp

/-- C6 (amended): all public operations are pure functions of their input
buffer and configuration, except that `analyzeMaterial`'s dominant-bucket
selection additionally depends on the histogram hash map's iteration order;
when no two histogram buckets share a frequency, every iteration order
yields the same material label, but under a tie different orders can yield
different labels (see the counterexample). -/
theorem claim_C6_amended (buf : List ℕ) (edge_density : ℚ) (l1 l2 : List (String × ℚ))
    (hnd : ((Complex.calculate_color_histogram buf).map Prod.snd).Nodup)
    (h1 : l1.Perm (Complex.calculate_color_histogram buf))
    (h2 : l2.Perm (Complex.calculate_color_histogram buf)) :
    Complex.classify_material l1 edge_density = Complex.classify_material l2 edge_density := by
  have hpos1 : ∀ p ∈ l1, 0 < p.2 := fun p hp => (histogram_mem_bounds (h1.mem_iff.1 hp)).1
  have hpos2 : ∀ p ∈ l2, 0 < p.2 := fun p hp => (histogram_mem_bounds (h2.mem_iff.1 hp)).1
  have hnd1 : (l1.map Prod.snd).Nodup := ((h1.map Prod.snd).nodup_iff).2 hnd
  have hnd2 : (l2.map Prod.snd).Nodup := ((h2.map Prod.snd).nodup_iff).2 hnd
  have hd : dominantOf l1 = dominantOf l2 :=
    (dominantOf_perm_of_nodup l1 _ h1 hpos1 hnd1).trans
      (dominantOf_perm_of_nodup l2 _ h2 hpos2 hnd2).symm
  rw [Complex.classify_material, Complex.classify_material, hd]

/-- C6 (witness): a concrete 3×1 buffer with one stone and two grass pixels
has bucket frequencies `1/3 ≠ 2/3`; the two iteration orders of its
histogram produce the same material label. -/
theorem claim_C6_witness :
    Complex.classify_material [("stone", (1 : ℚ) / 3), ("grass", 2 / 3)] 0 =
      Complex.classify_material [("grass", (2 : ℚ) / 3), ("stone", 1 / 3)] 0 := by
  have hh : Complex.calculate_color_histogram
      [128, 128, 128, 255, 0, 160, 0, 255, 0, 160, 0, 255] =
      [("stone", (1 : ℚ) / 3), ("grass", 2 / 3)] := by
    have ht : totalOpaque [128, 128, 128, 255, 0, 160, 0, 255, 0, 160, 0, 255] = 3 := rfl
    have h1 : Complex.bucketCount [128, 128, 128, 255, 0, 160, 0, 255, 0, 160, 0, 255] "wood" = 0 := rfl
    have h2 : Complex.bucketCount [128, 128, 128, 255, 0, 160, 0, 255, 0, 160, 0, 255] "stone" = 1 := rfl
    have h3 : Complex.bucketCount [128, 128, 128, 255, 0, 160, 0, 255, 0, 160, 0, 255] "grass" = 2 := rfl
    have h4 : Complex.bucketCount [128, 128, 128, 255, 0, 160, 0, 255, 0, 160, 0, 255] "water" = 0 := rfl
    have h5 : Complex.bucketCount [128, 128, 128, 255, 0, 160, 0, 255, 0, 160, 0, 255] "metal" = 0 := rfl
    have h6 : Complex.bucketCount [128, 128, 128, 255, 0, 160, 0, 255, 0, 160, 0, 255] "glass" = 0 := rfl
    have h7 : Complex.bucketCount [128, 128, 128, 255, 0, 160, 0, 255, 0, 160, 0, 255] "organic" = 0 := rfl
    have h8 : Complex.bucketCount [128, 128, 128, 255, 0, 160, 0, 255, 0, 160, 0, 255] "other" = 0 := rfl
    rw [Complex.calculate_color_histogram, if_neg (by rw [ht]; decide)]
    simp [Complex.bucketNames, ht, h1, h2, h3, h4, h5, h6, h7, h8]
  refine claim_C6_amended [128, 128, 128, 255, 0, 160, 0, 255, 0, 160, 0, 255] 0 _ _ ?_ ?_ ?_
  · rw [hh]
    simp
    norm_num
  · rw [hh]
  · rw [hh]
    exact List.Perm.swap ("stone", (1 : ℚ) / 3) ("grass", 2 / 3) []

/-! ## Claims C3 and C9: edge-detector lemmas -/

theorem idx_lt {x y w h : ℕ} (hx : x < w) (hy : y < h) : y * w + x < w * h :=
  calc y * w + x < y * w + w := by omega
    _ = (y + 1) * w := by ring
    _ ≤ h * w := Nat.mul_le_mul_right w hy
    _ = w * h := Nat.mul_comm h w

theorem getElem?_eq_getD {l : List ℕ} {i : ℕ} (h : i < l.length) :
    l[i]? = some (l.getD i 0) := by
  rw [List.getElem?_eq_getElem h]
  rw [List.getD_eq_getElem l 0 h]

theorem sobelStep_eq (gray : List ℕ) (w h x y acc : ℕ) (hlen : gray.length = w * h)
    (hx1 : 1 ≤ x) (hx2 : x + 1 < w) (hy1 : 1 ≤ y) (hy2 : y + 1 < h) :
    Complex.sobelStep gray w acc x y =
      some (if ((Complex.sobelGx gray w x y).natAbs +
          (Complex.sobelGy gray w x y).natAbs) % 256 > 30 then acc + 1 else acc) := by
  have hidx : ∀ x2 y2, x2 < w → y2 < h → y2 * w + x2 < gray.length := by
    intro x2 y2 hx hy
    rw [hlen]
    exact idx_lt hx hy
  have e1 : gray[(y - 1) * w + (x - 1)]? = some (gray.getD ((y - 1) * w + (x - 1)) 0) :=
    getElem?_eq_getD (hidx _ _ (by omega) (by omega))
  have e2 : gray[(y - 1) * w + x]? = some (gray.getD ((y - 1) * w + x) 0) :=
    getElem?_eq_getD (hidx _ _ (by omega) (by omega))
  have e3 : gray[(y - 1) * w + (x + 1)]? = some (gray.getD ((y - 1) * w + (x + 1)) 0) :=
    getElem?_eq_getD (hidx _ _ (by omega) (by omega))
  have e4 : gray[y * w + (x - 1)]? = some (gray.getD (y * w + (x - 1)) 0) :=
    getElem?_eq_getD (hidx _ _ (by omega) (by omega))
  have e5 : gray[y * w + (x + 1)]? = some (gray.getD (y * w + (x + 1)) 0) :=
    getElem?_eq_getD (hidx _ _ (by omega) (by omega))
  have e6 : gray[(y + 1) * w + (x - 1)]? = some (gray.getD ((y + 1) * w + (x - 1)) 0) :=
    getElem?_eq_getD (hidx _ _ (by omega) (by omega))
  have e7 : gray[(y + 1) * w + x]? = some (gray.getD ((y + 1) * w + x) 0) :=
    getElem?_eq_getD (hidx _ _ (by omega) (by omega))
  have e8 : gray[(y + 1) * w + (x + 1)]? = some (gray.getD ((y + 1) * w + (x + 1)) 0) :=
    getElem?_eq_getD (hidx _ _ (by omega) (by omega))
  simp only [Complex.sobelStep, e1, e2, e3, e4, e5, e6, e7, e8, Option.some_bind]
  rfl

theorem foldlM_option_some {α β : Type} (P : α → Prop) (f : α → β → Option α)
    (l : List β) (a : α) (ha : P a)
    (hf : ∀ x b, P x → b ∈ l → ∃ y, f x b = some y ∧ P y) :
    ∃ y, l.foldlM f a = some y ∧ P y := by
  induction l generalizing a with
  | nil => exact ⟨a, rfl, ha⟩
  | cons b rest ih =>
    obtain ⟨y, hy, hPy⟩ := hf a b ha (List.mem_cons_self b rest)
    rw [List.foldlM_cons, hy]
    show ∃ z, rest.foldlM f y = some z ∧ P z
    exact ih y hPy (fun x c hx hc => hf x c hx (List.mem_cons_of_mem _ hc))

theorem writeGray_some (l : List Rgba) (i : ℕ) (g : List ℕ)
    (h : i + l.length ≤ g.length) :
    ∃ out, Complex.writeGray l i g = some out ∧ out.length = g.length := by
  induction l generalizing i g with
  | nil => exact ⟨g, rfl, rfl⟩
  | cons p rest ih =>
    rw [Complex.writeGray]
    have hi : i < g.length := by simp at h; omega
    rw [if_pos hi]
    obtain ⟨out, ho, hl⟩ := ih (i + 1) (g.set i (Complex.lumaByte p))
      (by rw [List.length_set]; simp at h ⊢; omega)
    exact ⟨out, ho, by rw [hl, List.length_set]⟩

theorem chunksExact4_length : ∀ buf : List ℕ, (chunksExact4 buf).length = buf.length / 4
  | [] => rfl
  | [_] => by simp [chunksExact4]
  | [_, _] => by simp [chunksExact4]
  | [_, _, _] => by simp [chunksExact4]
  | r :: g :: b :: a :: rest => by
    rw [chunksExact4]
    simp only [List.length_cons, chunksExact4_length rest]
    try omega

theorem grayscaleChecked_some (buf : List ℕ) (w h : ℕ) (hlen : buf.length = w * h * 4) :
    ∃ g, Complex.grayscaleChecked buf w h = some g ∧ g.length = w * h := by
  have hc : (chunksExact4 buf).length = w * h := by
    rw [chunksExact4_length, hlen]
    omega
  obtain ⟨out, ho, hl⟩ := writeGray_some (chunksExact4 buf) 0 (List.replicate (w * h) 0)
    (by rw [List.length_replicate, hc]; omega)
  exact ⟨out, ho, by rw [hl, List.length_replicate]⟩

theorem sobelRow_some (gray : List ℕ) (w h y acc : ℕ) (hlen : gray.length = w * h)
    (hy1 : 1 ≤ y) (hy2 : y + 1 < h) :
    ∃ m, (List.range' 1 (w - 1 - 1)).foldlM
      (fun a x => Complex.sobelStep gray w a x y) acc = some m := by
  obtain ⟨m, hm, _⟩ := foldlM_option_some (fun _ => True)
    (fun a x => Complex.sobelStep gray w a x y) (List.range' 1 (w - 1 - 1)) acc trivial
    (fun a x _ hx => by
      have hx2 : 1 ≤ x ∧ x < 1 + (w - 1 - 1) := List.mem_range'_1.1 hx
      exact ⟨_, sobelStep_eq gray w h x y a hlen hx2.1 (by omega) hy1 hy2, trivial⟩)
  exact ⟨m, hm⟩

theorem edgeCountChecked_some (gray : List ℕ) (w h : ℕ) (hlen : gray.length = w * h)
    (hw : 1 ≤ w) (hh : 1 ≤ h) : ∃ n, Complex.edgeCountChecked gray w h = some n := by
  obtain ⟨n, hn, _⟩ := foldlM_option_some (fun _ => True)
    (fun acc y =>
      (Complex.checkedSub w 1).bind fun wm =>
        (List.range' 1 (wm - 1)).foldlM (fun a x => Complex.sobelStep gray w a x y) acc)
    (List.range' 1 (h - 1 - 1)) 0 trivial
    (fun acc y _ hy => by
      have hy2 : 1 ≤ y ∧ y < 1 + (h - 1 - 1) := List.mem_range'_1.1 hy
      obtain ⟨m, hm⟩ := sobelRow_some gray w h y acc hlen hy2.1 (by omega)
      refine ⟨m, ?_, trivial⟩
      rw [show Complex.checkedSub w 1 = some (w - 1) from if_pos hw]
      exact hm)
  refine ⟨n, ?_⟩
  rw [Complex.edgeCountChecked,
    show Complex.checkedSub h 1 = some (h - 1) from if_pos hh]
  exact hn

/-- C3 (counterexample): a 3×3 image whose right column has pixel
`(0,110,0,255)` (luma 64) and is otherwise opaque black has, at its single
interior pixel `(1,1)`, exact Sobel convolutions `Gx = 256`, `Gy = 0` — an
exact L1 magnitude of `256 > 30` — yet the pixel is **not** counted as an
edge pixel (the `as u8` cast reduces 256 to 0) and the full
`calculate_edge_density` pass returns density 0.  This refutes the claim
that every pixel of exact magnitude above 30 is counted. -/
theorem claim_C3_counterexample :
    Complex.grayscaleChecked
      [0, 0, 0, 255, 0, 0, 0, 255, 0, 110, 0, 255,
       0, 0, 0, 255, 0, 0, 0, 255, 0, 110, 0, 255,
       0, 0, 0, 255, 0, 0, 0, 255, 0, 110, 0, 255] 3 3 =
      some [0, 0, 64, 0, 0, 64, 0, 0, 64] ∧
    Complex.sobelGx [0, 0, 64, 0, 0, 64, 0, 0, 64] 3 1 1 = 256 ∧
    Complex.sobelGy [0, 0, 64, 0, 0, 64, 0, 0, 64] 3 1 1 = 0 ∧
    ((Complex.sobelGx [0, 0, 64, 0, 0, 64, 0, 0, 64] 3 1 1).natAbs +
      (Complex.sobelGy [0, 0, 64, 0, 0, 64, 0, 0, 64] 3 1 1).natAbs > 30) ∧
    Complex.sobelStep [0, 0, 64, 0, 0, 64, 0, 0, 64] 3 0 1 1 = some 0 ∧
    Complex.calculate_edge_density
      [0, 0, 0, 255, 0, 0, 0, 255, 0, 110, 0, 255,
       0, 0, 0, 255, 0, 0, 0, 255, 0, 110, 0, 255,
       0, 0, 0, 255, 0, 0, 0, 255, 0, 110, 0, 255] 3 3 = some 0 := by
  refine ⟨rfl, rfl, rfl, by decide, rfl, ?_⟩
  show some (if 0 < (9 : ℕ) then ((0 : ℕ) : ℚ) / (((9 : ℕ) : ℕ) : ℚ) else 0) = some 0
  norm_num

/-- C3 (amended): an interior pixel is counted as an edge pixel if and only
if `(|Gx| + |Gy|) % 256 > 30`, where `Gx`, `Gy` are the exact integer Sobel
convolutions of the grayscale image: the L1 magnitude is cast to `u8`
(reduced modulo 256) before the threshold comparison, so exact magnitudes
of 256 or more can wrap below the threshold and be missed. -/
theorem claim_C3_amended (gray : List ℕ) (w h x y acc : ℕ) (hlen : gray.length = w * h)
    (hx1 : 1 ≤ x) (hx2 : x + 1 < w) (hy1 : 1 ≤ y) (hy2 : y + 1 < h) :
    Complex.sobelStep gray w acc x y =
      some (if ((Complex.sobelGx gray w x y).natAbs +
          (Complex.sobelGy gray w x y).natAbs) % 256 > 30 then acc + 1 else acc) :=
  sobelStep_eq gray w h x y acc hlen hx1 hx2 hy1 hy2

/-- C3 (witness): the amended statement at the interior pixel `(1,1)` of a
concrete 3×3 grayscale image (right column 50): exact `Gx = 200`,
`200 % 256 = 200 > 30`, and the pixel is counted. -/
theorem claim_C3_witness :
    Complex.sobelStep [0, 0, 50, 0, 0, 50, 0, 0, 50] 3 0 1 1 =
      some (if ((Complex.sobelGx [0, 0, 50, 0, 0, 50, 0, 0, 50] 3 1 1).natAbs +
          (Complex.sobelGy [0, 0, 50, 0, 0, 50, 0, 0, 50] 3 1 1).natAbs) % 256 > 30
        then 0 + 1 else 0) :=
  claim_C3_amended [0, 0, 50, 0, 0, 50, 0, 0, 50] 3 3 1 1 0 rfl
    (by decide) (by decide) (by decide) (by decide)

/-- C9 (counterexample): the degenerate valid input `width = height = 0`
(empty buffer) makes the Sobel loop's `height - 1` bound computation
underflow in `u32` (a panic in debug builds; in release builds the wrapped
bound leads the loop to index the empty grayscale array out of bounds) —
`calculate_edge_density` faults instead of returning a defined value,
refuting totality for all valid buffers. -/
theorem claim_C9_counterexample :
    ([] : List ℕ).length = 0 * 0 * 4 ∧
    Complex.calculate_edge_density [] 0 0 = none :=
  ⟨rfl, rfl⟩

/-- C9 (amended): for every valid buffer with `width ≥ 1` and `height ≥ 1`,
`calculate_edge_density` — the grayscale conversion pass, the Sobel loop
with its eight neighbour reads per interior pixel, and the guarded final
division — evaluates totally with no runtime fault and returns a defined
value. -/
theorem claim_C9_amended (buf : List ℕ) (w h : ℕ) (hlen : buf.length = w * h * 4)
    (hw : 1 ≤ w) (hh : 1 ≤ h) :
    (Complex.calculate_edge_density buf w h).isSome := by
  obtain ⟨g, hg, hgl⟩ := grayscaleChecked_some buf w h hlen
  obtain ⟨n, hn⟩ := edgeCountChecked_some g w h hgl hw hh
  rw [Complex.calculate_edge_density, hg]
  show (match Complex.edgeCountChecked g w h with
    | none => none
    | some edge_count =>
      some (if 0 < w * h then ((edge_count : ℕ) : ℚ) / (((w * h : ℕ)) : ℚ) else 0)).isSome
  rw [hn]
  rfl

/-- C9 (witness): the amended statement at the concrete all-black opaque
2×2 buffer. -/
theorem claim_C9_witness :
    (Complex.calculate_edge_density
      [0, 0, 0, 255, 0, 0, 0, 255, 0, 0, 0, 255, 0, 0, 0, 255] 2 2).isSome :=
  claim_C9_amended [0, 0, 0, 255, 0, 0, 0, 255, 0, 0, 0, 255, 0, 0, 0, 255] 2 2
    rfl (by decide) (by decide)

/-! ## Claim C8: edge-cleaner lemmas -/

theorem getD_set_eq {l : List ℕ} {i v : ℕ} (h : i < l.length) :
    (l.set i v).getD i 0 = v := by
  rw [List.getD_eq_getElem?_getD, List.getElem?_set_self h]
  rfl

theorem getD_set_ne {l : List ℕ} {i j v : ℕ} (h : i ≠ j) :
    (l.set i v).getD j 0 = l.getD j 0 := by
  rw [List.getD_eq_getElem?_getD, List.getElem?_set_ne h, List.getD_eq_getElem?_getD]

theorem zeroPixel_length (l : List ℕ) (idx : ℕ) :
    (Sprite.zeroPixel l idx).length = l.length := by
  rw [Sprite.zeroPixel]
  split_ifs <;> simp [List.length_set]

theorem zeroPixel_getD_inside {l : List ℕ} {idx j : ℕ} (hg : idx + 3 < l.length)
    (h1 : idx ≤ j) (h2 : j < idx + 4) : (Sprite.zeroPixel l idx).getD j 0 = 0 := by
  rw [Sprite.zeroPixel, if_pos hg]
  rcases (by omega : j = idx ∨ j = idx + 1 ∨ j = idx + 2 ∨ j = idx + 3) with h | h | h | h
  · rw [h]
    have d3 : idx + 3 ≠ idx := by omega
    have d2 : idx + 2 ≠ idx := by omega
    have d1 : idx + 1 ≠ idx := by omega
    rw [getD_set_ne d3, getD_set_ne d2, getD_set_ne d1, getD_set_eq (by omega)]
  · rw [h]
    have d3 : idx + 3 ≠ idx + 1 := by omega
    have d2 : idx + 2 ≠ idx + 1 := by omega
    rw [getD_set_ne d3, getD_set_ne d2,
      getD_set_eq (by rw [List.length_set]; omega)]
  · rw [h]
    have d3 : idx + 3 ≠ idx + 2 := by omega
    rw [getD_set_ne d3,
      getD_set_eq (by rw [List.length_set, List.length_set]; omega)]
  · rw [h]
    rw [getD_set_eq (by rw [List.length_set, List.length_set, List.length_set]; omega)]

theorem zeroPixel_getD_outside {l : List ℕ} {idx j : ℕ} (h : j < idx ∨ idx + 3 < j) :
    (Sprite.zeroPixel l idx).getD j 0 = l.getD j 0 := by
  rw [Sprite.zeroPixel]
  split_ifs
  · have d3 : idx + 3 ≠ j := by omega
    have d2 : idx + 2 ≠ j := by omega
    have d1 : idx + 1 ≠ j := by omega
    have d0 : idx ≠ j := by omega
    rw [getD_set_ne d3, getD_set_ne d2, getD_set_ne d1, getD_set_ne d0]
  · rfl

theorem clean_foldl_length (f : List ℕ → ℕ × ℕ → List ℕ)
    (hf : ∀ c yx, (f c yx).length = c.length) (L : List (ℕ × ℕ)) (acc : List ℕ) :
    (L.foldl f acc).length = acc.length := by
  induction L generalizing acc with
  | nil => rfl
  | cons p rest ih => rw [List.foldl_cons, ih, hf]

theorem clean_foldl_getD (w mnx mxx mny mxy : ℕ) (L : List (ℕ × ℕ)) (acc : List ℕ) (j : ℕ) :
    ((L.foldl (fun cleaned yx =>
        if yx.2 < mnx ∨ mxx < yx.2 ∨ yx.1 < mny ∨ mxy < yx.1 then
          Sprite.zeroPixel cleaned ((yx.1 * w + yx.2) * 4)
        else cleaned) acc).getD j 0) =
      if ∃ yx ∈ L, (yx.2 < mnx ∨ mxx < yx.2 ∨ yx.1 < mny ∨ mxy < yx.1) ∧
          (yx.1 * w + yx.2) * 4 ≤ j ∧ j < (yx.1 * w + yx.2) * 4 + 4 ∧
          (yx.1 * w + yx.2) * 4 + 3 < acc.length
      then 0 else acc.getD j 0 := by
  induction L generalizing acc with
  | nil => simp
  | cons p L ih =>
    simp only [List.foldl_cons]
    by_cases hc : p.2 < mnx ∨ mxx < p.2 ∨ p.1 < mny ∨ mxy < p.1
    · rw [if_pos hc, ih, zeroPixel_length]
      by_cases hex : ∃ yx ∈ L, (yx.2 < mnx ∨ mxx < yx.2 ∨ yx.1 < mny ∨ mxy < yx.1) ∧
          (yx.1 * w + yx.2) * 4 ≤ j ∧ j < (yx.1 * w + yx.2) * 4 + 4 ∧
          (yx.1 * w + yx.2) * 4 + 3 < acc.length
      · obtain ⟨yx, hm, hC⟩ := hex
        rw [if_pos ⟨yx, hm, hC⟩, if_pos ⟨yx, List.mem_cons_of_mem _ hm, hC⟩]
      · rw [if_neg hex]
        by_cases hj : (p.1 * w + p.2) * 4 ≤ j ∧ j < (p.1 * w + p.2) * 4 + 4 ∧
            (p.1 * w + p.2) * 4 + 3 < acc.length
        · rw [if_pos ⟨p, List.mem_cons_self p L, hc, hj⟩]
          exact zeroPixel_getD_inside hj.2.2 hj.1 hj.2.1
        · rw [if_neg ?_]
          · by_cases hguard : (p.1 * w + p.2) * 4 + 3 < acc.length
            · exact zeroPixel_getD_outside (by omega)
            · rw [Sprite.zeroPixel, if_neg hguard]
          · rintro ⟨yx, hm, hC⟩
            rcases List.mem_cons.1 hm with rfl | hm2
            · exact hj ⟨hC.2.1, hC.2.2⟩
            · exact hex ⟨yx, hm2, hC⟩
    · rw [if_neg hc, ih]
      by_cases hex : ∃ yx ∈ L, (yx.2 < mnx ∨ mxx < yx.2 ∨ yx.1 < mny ∨ mxy < yx.1) ∧
          (yx.1 * w + yx.2) * 4 ≤ j ∧ j < (yx.1 * w + yx.2) * 4 + 4 ∧
          (yx.1 * w + yx.2) * 4 + 3 < acc.length
      · obtain ⟨yx, hm, hC⟩ := hex
        rw [if_pos ⟨yx, hm, hC⟩, if_pos ⟨yx, List.mem_cons_of_mem _ hm, hC⟩]
      · rw [if_neg hex, if_neg ?_]
        rintro ⟨yx, hm, hC⟩
        rcases List.mem_cons.1 hm with rfl | hm2
        · exact hc hC.1
        · exact hex ⟨yx, hm2, hC⟩

theorem mem_rangeProduct {w h : ℕ} {yx : ℕ × ℕ} :
    yx ∈ ((List.range h).flatMap fun y => (List.range w).map fun x => (y, x)) ↔
      yx.1 < h ∧ yx.2 < w := by
  simp only [List.mem_flatMap, List.mem_map, List.mem_range]
  constructor
  · rintro ⟨y2, hy2, x2, hx2, rfl⟩
    exact ⟨hy2, hx2⟩
  · rintro ⟨hy, hx⟩
    exact ⟨yx.1, hy, yx.2, hx, rfl⟩

theorem foldl_abb_max_le (width height : ℕ) (hw : 0 < width) (l : List (ℕ × Rgba))
    (hl : ∀ q ∈ l, q.1 < width * height) (st : ℕ × ℕ × ℕ × ℕ)
    (h1 : st.2.2.1 ≤ width - 1) (h2 : st.2.2.2 ≤ height - 1) :
    (l.foldl (abbStep width) st).2.2.1 ≤ width - 1 ∧
    (l.foldl (abbStep width) st).2.2.2 ≤ height - 1 := by
  induction l generalizing st with
  | nil => exact ⟨h1, h2⟩
  | cons q rest ih =>
    rw [List.foldl_cons]
    refine ih (fun r hr => hl r (List.mem_cons_of_mem _ hr)) _ ?_ ?_
    · rw [abbStep]
      split_ifs
      · simp only []
        refine max_le h1 ?_
        have := Nat.mod_lt q.1 hw
        omega
      · exact h1
    · rw [abbStep]
      split_ifs
      · simp only []
        refine max_le h2 ?_
        have hq := hl q (List.mem_cons_self q rest)
        have : q.1 / width < height := Nat.div_lt_of_lt_mul hq
        omega
      · exact h2

theorem contentBounds_max_le (buf : List ℕ) (width height : ℕ) (hw : 0 < width)
    (hlen : buf.length = width * height * 4) :
    (contentBounds buf width height).2.2.1 ≤ width - 1 ∧
    (contentBounds buf width height).2.2.2 ≤ height - 1 := by
  refine foldl_abb_max_le width height hw _ ?_ _ (Nat.zero_le _) (Nat.zero_le _)
  intro q hq
  have hm := (mem_enumFromN hq).2.1
  have hc : (chunksExact4 buf).length = width * height := by
    rw [chunksExact4_length, hlen]
    omega
  rw [Nat.zero_add, hc] at hm
  exact hm

/-- C8 (confirmed): `cleanEdges` with `threshold = 0` returns a buffer of
the same length in which every byte of a pixel strictly outside the exact
alpha bounding box is zero and every byte of a pixel inside it is identical
to the input (byte `j` belongs to the pixel at `x = j/4 % width`,
`y = j/4 / width`).  The source copies the input (`pixels.to_vec()`) and
the embedding is pure, so the input buffer is not mutated. -/
theorem claim_C8 (buf : List ℕ) (width height : ℕ)
    (hlen : buf.length = width * height * 4) :
    (Sprite.auto_clean_edges_internal buf width height 0).length = buf.length ∧
    ∀ j, j < buf.length →
      (Sprite.auto_clean_edges_internal buf width height 0).getD j 0 =
        if Sprite.insideABB buf width height (j / 4 % width) (j / 4 / width)
        then buf.getD j 0 else 0 := by
  constructor
  · rw [Sprite.auto_clean_edges_internal]
    refine clean_foldl_length _ ?_ _ _
    intro c yx
    split_ifs
    · exact zeroPixel_length _ _
    · rfl
  · intro j hj
    have hw : 0 < width :=
      Nat.pos_of_ne_zero (fun h0 => by
        subst h0; simp only [Nat.zero_mul, Nat.mul_zero] at hlen; omega)
    have hh : 0 < height :=
      Nat.pos_of_ne_zero (fun h0 => by
        subst h0; simp only [Nat.zero_mul, Nat.mul_zero] at hlen; omega)
    have hpix : j / 4 < width * height :=
      Nat.div_lt_of_lt_mul (by rw [Nat.mul_comm]; exact hlen ▸ hj)
    have hpx : j / 4 % width < width := Nat.mod_lt _ hw
    have hpy : j / 4 / width < height := Nat.div_lt_of_lt_mul hpix
    have hsum : (j / 4 / width) * width + j / 4 % width = j / 4 := by
      rw [Nat.mul_comm]
      exact Nat.div_add_mod (j / 4) width
    obtain ⟨hmx, hmy⟩ := contentBounds_max_le buf width height hw hlen
    simp only [Sprite.auto_clean_edges_internal]
    rw [clean_foldl_getD]
    have hiff : (∃ yx ∈ (List.range height).flatMap
          (fun y => (List.range width).map fun x => (y, x)),
        (yx.2 < (contentBounds buf width height).1 - 0 ∨
          min ((contentBounds buf width height).2.2.1 + 0) (width - 1) < yx.2 ∨
          yx.1 < (contentBounds buf width height).2.1 - 0 ∨
          min ((contentBounds buf width height).2.2.2 + 0) (height - 1) < yx.1) ∧
        (yx.1 * width + yx.2) * 4 ≤ j ∧ j < (yx.1 * width + yx.2) * 4 + 4 ∧
        (yx.1 * width + yx.2) * 4 + 3 < buf.length) ↔
        ¬ Sprite.insideABB buf width height (j / 4 % width) (j / 4 / width) := by
      simp only [Sprite.insideABB]
      simp only [Nat.sub_zero, Nat.add_zero, min_eq_left hmx, min_eq_left hmy]
      constructor
      · rintro ⟨yx, hm, hC, hr1, hr2, _⟩
        obtain ⟨hy, hx⟩ := mem_rangeProduct.1 hm
        have heq : yx.1 * width + yx.2 = j / 4 := by omega
        have hx1 : yx.1 = j / 4 / width := by
          have : (yx.2 + yx.1 * width) / width = j / 4 / width := by
            rw [Nat.add_comm] at heq
            rw [heq]
          rw [Nat.add_mul_div_right _ _ hw, Nat.div_eq_of_lt hx] at this
          omega
        have hx2 : yx.2 = j / 4 % width := by
          have : (yx.2 + yx.1 * width) % width = j / 4 % width := by
            rw [Nat.add_comm] at heq
            rw [heq]
          rw [Nat.add_mul_mod_self_right, Nat.mod_eq_of_lt hx] at this
          omega
        rw [hx1, hx2] at hC
        omega
      · intro hni
        refine ⟨(j / 4 / width, j / 4 % width), mem_rangeProduct.2 ⟨hpy, hpx⟩, ?_, ?_, ?_, ?_⟩
        · dsimp only
          omega
        · dsimp only
          omega
        · dsimp only
          omega
        · dsimp only
          omega
    by_cases hin : Sprite.insideABB buf width height (j / 4 % width) (j / 4 / width)
    · rw [if_neg (by rw [hiff]; exact fun hc => hc hin), if_pos hin]
    · rw [if_pos (hiff.2 hin), if_neg hin]

/-- C8 (witness): the cleaner at threshold 0 on the concrete 2×1 buffer
with an opaque first pixel and a transparent second pixel: same length, the
inside pixel's bytes unchanged, the outside pixel's bytes zeroed. -/
theorem claim_C8_witness :
    (Sprite.auto_clean_edges_internal [5, 6, 7, 255, 8, 9, 10, 0] 2 1 0).length = 8 ∧
    (Sprite.auto_clean_edges_internal [5, 6, 7, 255, 8, 9, 10, 0] 2 1 0).getD 0 0 =
      [5, 6, 7, 255, 8, 9, 10, 0].getD 0 0 ∧
    (Sprite.auto_clean_edges_internal [5, 6, 7, 255, 8, 9, 10, 0] 2 1 0).getD 4 0 = 0 := by
  have h := claim_C8 [5, 6, 7, 255, 8, 9, 10, 0] 2 1 rfl
  refine ⟨h.1.trans rfl, ?_, ?_⟩
  · exact (h.2 0 (by decide)).trans (if_pos (by decide))
  · exact (h.2 4 (by decide)).trans (if_neg (by decide))

end Harvest
